import Mathlib

/-!
Verification development for the `fb_marketplace_monitor` core: the
deduplication store (`storage.py`), the notification dispatcher
(`notifications.py`) and the monitoring orchestration (`monitor.py`,
`config.py`).  Python methods that mutate the storage object are embedded
as functions returning the new store value; external collaborators (the
browser scraper and the Telegram transport) are parameters, with fallible
calls modelled in the `Except` monad.
-/

namespace FbMonitor

/-- Timestamps.  The Python code stores `datetime.now().isoformat()` strings
and compares them lexicographically (`record.last_seen < cutoff_str` in
`ListingStorage.cleanup`); ISO-8601 strings of this form compare
lexicographically exactly as the instants they denote compare
chronologically, so timestamps are embedded as integers.  One unit is one
day, matching the `timedelta(days=days)` granularity used by `cleanup`. -/
abbrev Time := Int

/-- Model of `storage.ListingRecord`: record of a seen listing. -/
structure ListingRecord where
  listing_id : String
  title : String
  first_seen : Time
  last_seen : Time
  notified : Bool
  deriving Repr, DecidableEq

/-- Model of `notifications.Listing`: a marketplace listing as produced by the
scraper. -/
structure Listing where
  listing_id : String
  title : String
  price : String
  location : String
  url : String
  image_url : Option String
  description : Option String
  deriving Repr, DecidableEq

/-- The `ListingStorage._listings` dict, keyed by `listing_id`.  A Python
dict is insertion-ordered with unique keys, so it is embedded as an
association list; every operation below preserves key-uniqueness exactly as
the dict does (updates in place, inserts at the end). -/
abbrev Store := List (String × ListingRecord)

/-- Model of `ListingStorage.has_seen`: `listing_id in self._listings`. -/
def hasSeen (s : Store) (listing_id : String) : Bool :=
  (s.find? (fun p => p.1 == listing_id)).isSome

/-- Dict lookup `self._listings[listing_id]`. -/
def lookupRecord (s : Store) (listing_id : String) : Option ListingRecord :=
  (s.find? (fun p => p.1 == listing_id)).map (fun p => p.2)

/-- Model of `ListingStorage.mark_seen`: if the id is present, update only
`last_seen`; otherwise insert a fresh record with
`first_seen = last_seen = now`.  (The Python signature defaults
`notified=True`; callers that rely on the default pass `true` here.) -/
def markSeen (s : Store) (listing_id title : String) (notified : Bool)
    (now : Time) : Store :=
  if (s.find? (fun p => p.1 == listing_id)).isSome then
    s.map (fun p =>
      if p.1 == listing_id then (p.1, { p.2 with last_seen := now }) else p)
  else
    s ++ [(listing_id,
      { listing_id := listing_id, title := title, first_seen := now,
        last_seen := now, notified := notified })]

/-- Model of `set(self._listings.keys())`. -/
def storeKeys (s : Store) : Finset String :=
  (s.map (fun p => p.1)).toFinset

/-- Model of `ListingStorage.get_new_listings`: returns
`listing_ids - set(self._listings.keys())`.  The method body only reads the
map; the pair records that the store is returned unchanged. -/
def getNewListings (s : Store) (listing_ids : Finset String) :
    Finset String × Store :=
  (listing_ids \ storeKeys s, s)

/-- Model of `ListingStorage.cleanup`: collect the ids of records with
`last_seen < cutoff` where `cutoff = now - timedelta(days=days)`, delete
those ids from the dict, and return the removed count together with the new
store. -/
def cleanup (s : Store) (days : Int) (now : Time) : Nat × Store :=
  let cutoff : Time := now - days
  let old_listings : List String :=
    (s.filter (fun p => decide (p.2.last_seen < cutoff))).map (fun p => p.1)
  let remaining := s.filter (fun p => !(old_listings.contains p.1))
  (old_listings.length, remaining)

/-- The special characters escaped by `Listing._escape_markdown`. -/
def specialChars : List String :=
  ["_", "*", "[", "]", "(", ")", "~", "\x60", ">", "#", "+", "-", "=", "|",
   "\x7b", "\x7d", ".", "!"]

/-- Model of `Listing._escape_markdown`: replace each special character `c` by
a backslash followed by `c`, in the listed order. -/
def escapeMarkdown (text : String) : String :=
  specialChars.foldl (fun t c => t.replace c ("\\" ++ c)) text

/-- Model of `Listing.format_message`: the MarkdownV2 notification text. -/
def formatMessage (l : Listing) : String :=
  let lines :=
    ["🆕 *New Marketplace Listing!*", "",
     "📦 *" ++ escapeMarkdown l.title ++ "*",
     "💰 " ++ escapeMarkdown l.price,
     "📍 " ++ escapeMarkdown l.location]
  let lines := lines ++
    (match l.description with
     | some d =>
         let desc := if d.length > 200 then d.take 200 ++ "..." else d
         ["📝 " ++ escapeMarkdown desc]
     | none => [])
  let lines := lines ++ ["", "🔗 [View Listing](" ++ l.url ++ ")"]
  String.intercalate "\n" lines

/-- The external Telegram transport, as seen by `TelegramNotifier`: bot
construction and the two bot calls, each of which may raise. -/
structure Transport (ε : Type) where
  getBot : Except ε Unit
  sendPhoto : String → String → Except ε Unit
  sendMessage : String → Except ε Unit

/-- The body of the `try` block of `TelegramNotifier.send_listing`, before
the enclosing catch-all: get the bot, format the message, send a photo with
the message as caption when an image is present (falling back to a plain
message if the photo send raises), else send a plain message. -/
def sendListingAttempt {ε : Type} (T : Transport ε) (l : Listing) :
    Except ε Unit := do
  T.getBot
  let message := formatMessage l
  match l.image_url with
  | some image_url =>
      match T.sendPhoto image_url message with
      | .ok _ => pure ()
      | .error _ => T.sendMessage message
  | none => T.sendMessage message

/-- Model of `TelegramNotifier.send_listing`: the attempt wrapped in
`try ... return True / except Exception ... return False`. -/
def sendListing {ε : Type} (T : Transport ε) (l : Listing) : Bool :=
  match sendListingAttempt T l with
  | .ok _ => true
  | .error _ => false

/-- Model of `NotificationManager.notify_listing`: delegate to the Telegram notifier
when one is configured, else return `False`. -/
def notifyListing {ε : Type} (telegram_enabled : Bool) (T : Transport ε)
    (l : Listing) : Bool :=
  if telegram_enabled then sendListing T l else false

/-- Model of `NotificationManager.notify_listings`: the loop that sends each listing
via `notify_listing`, counts the successes, and paces the sends (the
`asyncio.sleep(1)` between iterations has no effect on the result). -/
def notifyListings {ε : Type} (telegram_enabled : Bool) (T : Transport ε) :
    List Listing → Nat
  | [] => 0
  | l :: ls =>
      (if notifyListing telegram_enabled T l then 1 else 0) +
        notifyListings telegram_enabled T ls

/-- The dedup loop at the end of `MarketplaceMonitor._search_all_keywords`,
rendered recursively: `seen_ids` is the accumulated set of ids, and a
listing is kept exactly when its id has not been seen yet. -/
def dedupAux (seen_ids : List String) : List Listing → List Listing
  | [] => []
  | l :: ls =>
      if seen_ids.contains l.listing_id then dedupAux seen_ids ls
      else l :: dedupAux (l.listing_id :: seen_ids) ls

/-- Deduplication by listing id, first occurrence wins. -/
def dedupListings (all_listings : List Listing) : List Listing :=
  dedupAux [] all_listings

/-- Model of `MarketplaceMonitor._search_all_keywords`: the per-term scraper results
(terms whose search raised contribute nothing, matching the per-term
`except` clause) are concatenated in term order and deduplicated by id. -/
def searchAllKeywords (termResults : List (List Listing)) : List Listing :=
  dedupListings termResults.flatten

/-- The counting loop of `notify_listings` abstracted over the per-listing
send outcome, as used from `_process_listings`. -/
def countSends (send : Listing → Bool) : List Listing → Nat
  | [] => 0
  | l :: ls => (if send l then 1 else 0) + countSends send ls

/-- The `for listing in new_listings: self.storage.mark_seen(...)` loop of
`_process_listings`; `notified` is left at its Python default `True`. -/
def markAllSeen (store : Store) (new_listings : List Listing) (now : Time) :
    Store :=
  new_listings.foldl
    (fun s l => markSeen s l.listing_id l.title true now) store

/-- The `new_listings` batch computed by `_process_listings`: listings whose
id is in `get_new_listings({l.listing_id for l in listings})`. -/
def newBatch (store : Store) (listings : List Listing) : List Listing :=
  let listing_ids := (listings.map (fun l => l.listing_id)).toFinset
  let new_ids := (getNewListings store listing_ids).1
  listings.filter (fun l => decide (l.listing_id ∈ new_ids))

/-- Model of `MarketplaceMonitor._process_listings`: early-out on an empty input or
an empty new-id set; otherwise dispatch the new listings (the per-listing
send outcome is the parameter `send`), mark every new listing seen, and
return the success count with the updated store. -/
def processListings (store : Store) (send : Listing → Bool) (now : Time)
    (listings : List Listing) : Nat × Store :=
  if listings.isEmpty then (0, store)
  else
    let listing_ids := (listings.map (fun l => l.listing_id)).toFinset
    let new_ids := (getNewListings store listing_ids).1
    if new_ids = ∅ then (0, store)
    else
      let new_listings :=
        listings.filter (fun l => decide (l.listing_id ∈ new_ids))
      let success_count := countSends send new_listings
      (success_count, markAllSeen store new_listings now)

/-- Model of `MarketplaceMonitor.check_once`: the three steps of the `try` block
(search, process, cleanup), each modelled by its outcome, with the
catch-all `except Exception: return 0`. -/
def checkOnce {ε : Type} (searchStep : Except ε (List Listing))
    (processStep : List Listing → Except ε Nat)
    (cleanupStep : Except ε Nat) : Nat :=
  match (do
    let listings ← searchStep
    let notification_count ← processStep listings
    let _ ← cleanupStep
    pure notification_count : Except ε Nat) with
  | .ok n => n
  | .error _ => 0

/-- Model of `config.TelegramConfig` (only the field the core reads). -/
structure TelegramConfig where
  enabled : Bool
  deriving Repr, DecidableEq

/-- Model of `config.WhatsAppConfig` (only the field the core reads). -/
structure WhatsAppConfig where
  enabled : Bool
  deriving Repr, DecidableEq

/-- Model of `config.SearchConfig` (only the field `validate` reads). -/
structure SearchConfig where
  keywords : List String
  deriving Repr, DecidableEq

/-- Model of `config.MonitorConfig` (the fields the loop reads). -/
structure MonitorConfig where
  check_interval_seconds : Nat
  max_retries : Nat
  retry_delay_seconds : Nat
  deriving Repr, DecidableEq

/-- Model of `config.Config`. -/
structure Config where
  telegram : TelegramConfig
  whatsapp : WhatsAppConfig
  search : SearchConfig
  monitor : MonitorConfig
  deriving Repr, DecidableEq

/-- Model of `Config.validate`: append one error string per failed check, in the
order of the Python code. -/
def Config.validate (c : Config) : List String :=
  (if !c.telegram.enabled && !c.whatsapp.enabled then
     ["No notification method configured. Enable Telegram or WhatsApp."]
   else []) ++
  (if c.search.keywords.isEmpty then
     ["No search keywords configured. Set SEARCH_KEYWORDS env var."]
   else [])

/-- Observable outcome of a `MarketplaceMonitor.run` invocation. -/
structure RunResult where
  cycles_executed : Nat
  errors_logged : List String
  running_flag_on_return : Bool
  shutdown_called : Bool
  deriving Repr, DecidableEq

/-- Model of `MarketplaceMonitor.run` up to loop entry: `self._running = True`, then
`errors = self.config.validate()`; a non-empty error list logs every error
and returns immediately — before the `try`/`finally` that wraps the loop,
so neither a check cycle nor `shutdown` runs and `_running` keeps the value
it was just assigned.  The loop body itself (reached only on a valid
configuration) is abstracted as `loopBody`, applied to the current running
flag. -/
def runUpToLoop (cfg : Config) (loopBody : Bool → RunResult) : RunResult :=
  let running := true
  let errors := cfg.validate
  if !errors.isEmpty then
    { cycles_executed := 0, errors_logged := errors,
      running_flag_on_return := running, shutdown_called := false }
  else loopBody running

/-- One iteration of the `while self._running` loop of
`MarketplaceMonitor.run`, as a function of the retry counter and of the
cycle's outcome.  Returns the new counter and the list of sleep durations
performed before the next iteration: on success the counter resets and the
loop sleeps the check interval; on failure the counter increments, then if
it has reached `max_retries` the loop sleeps the long cooldown and resets
the counter, and finally sleeps `min(30 * retry_count, 300)` with the
current (possibly just reset) counter before continuing. -/
def loopStep (max_retries retry_delay_seconds check_interval_seconds : Nat)
    (retry_count : Nat) (outcome : Except Unit Nat) : Nat × List Nat :=
  match outcome with
  | .ok _ => (0, [check_interval_seconds])
  | .error _ =>
      let rc := retry_count + 1
      let reset :=
        if max_retries ≤ rc then (0, [retry_delay_seconds]) else (rc, [])
      (reset.1, reset.2 ++ [min (30 * reset.1) 300])

/-- Iterated `loopStep` over a finite trace of cycle outcomes, collecting
all sleep durations in order. -/
def runTrace (max_retries retry_delay_seconds check_interval_seconds : Nat) :
    Nat → List (Except Unit Nat) → Nat × List Nat
  | rc, [] => (rc, [])
  | rc, o :: os =>
      let step :=
        loopStep max_retries retry_delay_seconds check_interval_seconds rc o
      let rest :=
        runTrace max_retries retry_delay_seconds check_interval_seconds
          step.1 os
      (rest.1, step.2 ++ rest.2)

/-! ### Basic store lemmas -/

lemma hasSeen_eq_isSome (s : Store) (id : String) :
    hasSeen s id = (lookupRecord s id).isSome := by
  simp [hasSeen, lookupRecord]

lemma hasSeen_iff_mem_keys (s : Store) (id : String) :
    hasSeen s id = true ↔ id ∈ storeKeys s := by
  simp only [hasSeen, storeKeys, Option.isSome_iff_exists, List.mem_toFinset,
    List.mem_map]
  constructor
  · rintro ⟨p, hp⟩
    have hmem := List.mem_of_find?_eq_some hp
    have hpred := List.find?_some hp
    exact ⟨p, hmem, by simpa using hpred⟩
  · rintro ⟨p, hmem, hkey⟩
    have : (s.find? (fun q => q.1 == id)).isSome := by
      rw [List.find?_isSome]
      exact ⟨p, hmem, by simpa using hkey⟩
    exact Option.isSome_iff_exists.mp this

lemma hasSeen_false_iff (s : Store) (id : String) :
    hasSeen s id = false ↔ id ∉ storeKeys s := by
  rw [← hasSeen_iff_mem_keys]
  cases h : hasSeen s id <;> simp

lemma hasSeen_false_lookup (s : Store) (id : String)
    (h : hasSeen s id = false) : lookupRecord s id = none := by
  rw [hasSeen_eq_isSome] at h
  exact Option.not_isSome_iff_eq_none.mp (by simp [h])

lemma find?_fst_map (s : Store) (g : String × ListingRecord → String × ListingRecord)
    (hg : ∀ p, (g p).1 = p.1) (q : String) :
    (s.map g).find? (fun p => p.1 == q) =
      (s.find? (fun p => p.1 == q)).map g := by
  rw [List.find?_map]
  have : ((fun p : String × ListingRecord => p.1 == q) ∘ g) =
      (fun p : String × ListingRecord => p.1 == q) := by
    funext p
    simp [Function.comp, hg]
  rw [this]

lemma filter_fst_map (s : Store) (g : String × ListingRecord → String × ListingRecord)
    (hg : ∀ p, (g p).1 = p.1) (q : String) :
    (s.map g).filter (fun p => p.1 == q) =
      (s.filter (fun p => p.1 == q)).map g := by
  induction s with
  | nil => rfl
  | cons a s ih =>
      by_cases h : a.1 = q
      · simp only [List.map_cons, List.filter_cons]
        rw [hg a]
        simp [h, ih]
      · simp only [List.map_cons, List.filter_cons]
        rw [hg a]
        simp [h, ih]

lemma lookupRecord_markSeen_self (s : Store) (id t : String) (n : Bool)
    (now : Time) :
    lookupRecord (markSeen s id t n now) id =
      some (match lookupRecord s id with
            | some r => { r with last_seen := now }
            | none => { listing_id := id, title := t, first_seen := now,
                        last_seen := now, notified := n }) := by
  unfold markSeen lookupRecord
  cases hfind : s.find? (fun p => p.1 == id) with
  | some p =>
      simp only [hfind, Option.isSome_some, if_true]
      rw [find?_fst_map]
      · rw [hfind]
        have hp := List.find?_some hfind
        simp only [beq_iff_eq] at hp
        simp [hp]
      · intro q
        by_cases h : q.1 = id <;> simp [h]
  | none =>
      simp only [hfind, Option.isSome_none, Bool.false_eq_true, if_false]
      rw [List.find?_append, hfind]
      simp

lemma lookupRecord_markSeen_other (s : Store) (id t : String) (n : Bool)
    (now : Time) (q : String) (hq : q ≠ id) :
    lookupRecord (markSeen s id t n now) q = lookupRecord s q := by
  unfold markSeen lookupRecord
  cases hfind : s.find? (fun p => p.1 == id) with
  | some p =>
      simp only [hfind, Option.isSome_some, if_true]
      rw [find?_fst_map]
      · cases hq2 : s.find? (fun p => p.1 == q) with
        | some r =>
            have hrq : r.1 = q := by simpa using List.find?_some hq2
            simp [hrq, hq]
        | none => simp
      · intro e
        by_cases h : e.1 = id <;> simp [h]
  | none =>
      simp only [hfind, Option.isSome_none, Bool.false_eq_true, if_false]
      rw [List.find?_append]
      simp [Ne.symm hq]

lemma markSeen_length (s : Store) (id t : String) (n : Bool) (now : Time) :
    (markSeen s id t n now).length =
      if hasSeen s id then s.length else s.length + 1 := by
  unfold markSeen hasSeen
  cases hfind : s.find? (fun p => p.1 == id) <;> simp [hfind]

lemma markSeen_present_eq (s : Store) (id t : String) (n : Bool) (now : Time)
    (h : hasSeen s id = true) :
    markSeen s id t n now =
      s.map (fun p =>
        if p.1 == id then (p.1, { p.2 with last_seen := now }) else p) := by
  unfold hasSeen at h
  unfold markSeen
  rw [if_pos h]

lemma markSeen_absent_eq (s : Store) (id t : String) (n : Bool) (now : Time)
    (h : hasSeen s id = false) :
    markSeen s id t n now =
      s ++ [(id, { listing_id := id, title := t, first_seen := now,
                   last_seen := now, notified := n })] := by
  unfold hasSeen at h
  unfold markSeen
  rw [if_neg (by simp [h])]

lemma hasSeen_markSeen (s : Store) (id t : String) (n : Bool) (now : Time)
    (q : String) :
    hasSeen (markSeen s id t n now) q = (hasSeen s q || (q == id)) := by
  by_cases h : q = id
  · subst h
    rw [hasSeen_eq_isSome, lookupRecord_markSeen_self]
    simp
  · rw [hasSeen_eq_isSome, lookupRecord_markSeen_other s id t n now q h,
      ← hasSeen_eq_isSome]
    simp [h]

/-- C2: `get_new_listings` is exactly set difference against the stored
keys (no false positives or negatives, characterised via `has_seen`), and
it leaves the store unchanged. -/
theorem getNewListings_spec (s : Store) (S : Finset String) :
    (getNewListings s S).1 = S \ storeKeys s ∧
    (getNewListings s S).2 = s ∧
    ∀ id : String,
      id ∈ (getNewListings s S).1 ↔ id ∈ S ∧ hasSeen s id = false := by
  refine ⟨rfl, rfl, fun id => ?_⟩
  rw [hasSeen_false_iff]
  simp [getNewListings, Finset.mem_sdiff]

/-- C3: `mark_seen` is an upsert.  Starting from a store without `id`, two
successive calls leave exactly one record for `id` and one extra entry
overall; the final record keeps the first call's `title`, `first_seen` and
`notified` values while `last_seen` comes from the second call.  In
general, a call on an already-present id rewrites only `last_seen`. -/
theorem markSeen_upsert_spec (s : Store) (id t1 t2 : String) (n1 n2 : Bool)
    (now1 now2 : Time) (hnew : hasSeen s id = false) :
    (((markSeen (markSeen s id t1 n1 now1) id t2 n2 now2).filter
        (fun p => p.1 == id)).length = 1) ∧
    ((markSeen (markSeen s id t1 n1 now1) id t2 n2 now2).length =
      s.length + 1) ∧
    (lookupRecord (markSeen (markSeen s id t1 n1 now1) id t2 n2 now2) id =
      some { listing_id := id, title := t1, first_seen := now1,
             last_seen := now2, notified := n1 }) ∧
    (∀ s' : Store, ∀ r : ListingRecord, lookupRecord s' id = some r →
      lookupRecord (markSeen s' id t2 n2 now2) id =
        some { r with last_seen := now2 }) := by
  have hlook : lookupRecord s id = none := hasSeen_false_lookup s id hnew
  have hlook1 : lookupRecord (markSeen s id t1 n1 now1) id =
      some { listing_id := id, title := t1, first_seen := now1,
             last_seen := now1, notified := n1 } := by
    rw [lookupRecord_markSeen_self, hlook]
  have hseen1 : hasSeen (markSeen s id t1 n1 now1) id = true := by
    rw [hasSeen_eq_isSome, hlook1]
    rfl
  have hgen : ∀ s' : Store, ∀ r : ListingRecord, lookupRecord s' id = some r →
      lookupRecord (markSeen s' id t2 n2 now2) id =
        some { r with last_seen := now2 } := by
    intro s' r hr
    rw [lookupRecord_markSeen_self, hr]
  refine ⟨?_, ?_, ?_, hgen⟩
  · -- exactly one entry carries the key after both calls
    have hfilter : s.filter (fun p => p.1 == id) = [] := by
      rw [List.filter_eq_nil_iff]
      intro p hp hpk
      have hseen : hasSeen s id = true := by
        unfold hasSeen
        rw [List.find?_isSome]
        exact ⟨p, hp, hpk⟩
      rw [hseen] at hnew
      cases hnew
    have hstep1 : (markSeen s id t1 n1 now1).filter (fun p => p.1 == id) =
        [(id, { listing_id := id, title := t1, first_seen := now1,
                last_seen := now1, notified := n1 })] := by
      rw [markSeen_absent_eq s id t1 n1 now1 hnew, List.filter_append,
        hfilter]
      simp
    rw [markSeen_present_eq _ id t2 n2 now2 hseen1, filter_fst_map, hstep1]
    · rfl
    · intro q
      by_cases h : q.1 = id <;> simp [h]
  · rw [markSeen_length, hseen1, markSeen_length, hnew]
    simp
  · rw [hgen _ _ hlook1]

/-- Witness for `markSeen_upsert_spec` on a concrete fresh store. -/
theorem markSeen_upsert_witness :
    hasSeen ([] : Store) "123" = false ∧
    lookupRecord (markSeen (markSeen ([] : Store) "123" "Test Item 1" true 0)
        "123" "Test Item 1" true 5) "123" =
      some { listing_id := "123", title := "Test Item 1", first_seen := 0,
             last_seen := 5, notified := true } :=
  ⟨rfl,
    (markSeen_upsert_spec [] "123" "Test Item 1" "Test Item 1" true true 0 5
      rfl).2.2.1⟩

/-! ### Cleanup -/

/-- C4: `cleanup` removes exactly the records whose `last_seen` is strictly
older than the cutoff `now - retention_days` and returns the number
removed; a record exactly at the cutoff is retained, one time-unit older is
removed, the empty store yields `(0, [])`, and an un-notified record is
never removed for that reason alone. -/
lemma cleanup_remaining_eq (s : Store) (days : Int) (now : Time) :
    (cleanup s days now).2 =
      s.filter (fun p =>
        !(((s.filter (fun q => decide (q.2.last_seen < now - days))).map
            (fun q => q.1)).contains p.1)) := rfl

lemma mem_cleanup_iff (s : Store) (days : Int) (now : Time)
    (hkeys : (s.map (fun p => p.1)).Nodup) (p : String × ListingRecord)
    (hps : p ∈ s) :
    p ∈ (cleanup s days now).2 ↔ ¬ p.2.last_seen < now - days := by
  rw [cleanup_remaining_eq, List.mem_filter]
  have hcont : ((s.filter (fun q => decide (q.2.last_seen < now - days))).map
      (fun q => q.1)).contains p.1 = true ↔ p.2.last_seen < now - days := by
    rw [List.contains_eq_any_beq, List.any_eq_true]
    constructor
    · rintro ⟨x, hx, hbeq⟩
      rw [List.mem_map] at hx
      obtain ⟨q, hq, rfl⟩ := hx
      rw [List.mem_filter] at hq
      have hkeyeq : q.1 = p.1 := (eq_of_beq hbeq).symm
      have heq := List.inj_on_of_nodup_map hkeys hq.1 hps hkeyeq
      subst heq
      simpa using hq.2
    · intro hlt
      refine ⟨p.1, ?_, by simp⟩
      rw [List.mem_map]
      exact ⟨p, List.mem_filter.mpr ⟨hps, by simpa using hlt⟩, rfl⟩
  constructor
  · rintro ⟨-, hb⟩ hlt
    rw [hcont.mpr hlt] at hb
    cases hb
  · intro hge
    refine ⟨hps, ?_⟩
    cases hc : ((s.filter (fun q => decide (q.2.last_seen < now - days))).map
        (fun q => q.1)).contains p.1 with
    | true => exact absurd (hcont.mp hc) hge
    | false => rfl

/-- C4: `cleanup` removes exactly the records whose `last_seen` is strictly
older than the cutoff `now - retention_days` and returns the number
removed; a record exactly at the cutoff is retained, one time-unit older is
removed, the empty store yields `(0, [])`, and an un-notified record is
never removed for that reason alone. -/
theorem cleanup_spec (s : Store) (days : Int) (now : Time)
    (hkeys : (s.map (fun p => p.1)).Nodup) :
    ((cleanup s days now).1 =
      (s.filter (fun p => decide (p.2.last_seen < now - days))).length) ∧
    (∀ p : String × ListingRecord,
        p ∈ (cleanup s days now).2 ↔
          p ∈ s ∧ ¬ p.2.last_seen < now - days) ∧
    (cleanup ([] : Store) days now = (0, [])) ∧
    (∀ p : String × ListingRecord, p ∈ s → p.2.last_seen = now - days →
        p ∈ (cleanup s days now).2) ∧
    (∀ p : String × ListingRecord, p ∈ s →
        p.2.last_seen = now - days - 1 → p ∉ (cleanup s days now).2) ∧
    (∀ p : String × ListingRecord, p ∈ s → p.2.notified = false →
        ¬ p.2.last_seen < now - days → p ∈ (cleanup s days now).2) := by
  have hmem : ∀ p : String × ListingRecord,
      p ∈ (cleanup s days now).2 ↔
        p ∈ s ∧ ¬ p.2.last_seen < now - days := by
    intro p
    constructor
    · intro hpc
      have hps : p ∈ s := by
        rw [cleanup_remaining_eq] at hpc
        exact (List.mem_filter.mp hpc).1
      exact ⟨hps, (mem_cleanup_iff s days now hkeys p hps).mp hpc⟩
    · rintro ⟨hps, hge⟩
      exact (mem_cleanup_iff s days now hkeys p hps).mpr hge
  refine ⟨?_, hmem, rfl, ?_, ?_, ?_⟩
  · simp [cleanup]
  · intro p hp hat
    exact (hmem p).mpr ⟨hp, by rw [hat]; exact lt_irrefl _⟩
  · intro p hp hold hcon
    exact ((hmem p).mp hcon).2 (by rw [hold]; exact sub_one_lt _)
  · intro p hp _ hge
    exact (hmem p).mpr ⟨hp, hge⟩

/-- Witness for `cleanup_spec`: with `now = 10` and `retention 7` the cutoff
is `3`; a record last seen at `3` survives, one last seen at `2` is removed,
and an un-notified record last seen at `9` survives. -/
theorem cleanup_witness :
    (("atCutoff",
        ({ listing_id := "atCutoff", title := "a", first_seen := 0,
           last_seen := 3, notified := true } : ListingRecord)) ∈
      (cleanup
        [("atCutoff",
           { listing_id := "atCutoff", title := "a", first_seen := 0,
             last_seen := 3, notified := true }),
         ("older",
           { listing_id := "older", title := "b", first_seen := 0,
             last_seen := 2, notified := true }),
         ("unnotified",
           { listing_id := "unnotified", title := "c", first_seen := 9,
             last_seen := 9, notified := false })] 7 10).2) ∧
    (("older",
        ({ listing_id := "older", title := "b", first_seen := 0,
           last_seen := 2, notified := true } : ListingRecord)) ∉
      (cleanup
        [("atCutoff",
           { listing_id := "atCutoff", title := "a", first_seen := 0,
             last_seen := 3, notified := true }),
         ("older",
           { listing_id := "older", title := "b", first_seen := 0,
             last_seen := 2, notified := true }),
         ("unnotified",
           { listing_id := "unnotified", title := "c", first_seen := 9,
             last_seen := 9, notified := false })] 7 10).2) :=
  ⟨(cleanup_spec _ 7 10 (by decide)).2.2.2.1 _ (by decide) (by decide),
   (cleanup_spec _ 7 10 (by decide)).2.2.2.2.1 _ (by decide) (by decide)⟩

/-! ### The check-cycle pipeline -/

lemma markAllSeen_cons (store : Store) (l : Listing) (ls : List Listing)
    (now : Time) :
    markAllSeen store (l :: ls) now =
      markAllSeen (markSeen store l.listing_id l.title true now) ls now := rfl

lemma hasSeen_markAllSeen (store : Store) (ls : List Listing) (now : Time)
    (q : String) :
    hasSeen (markAllSeen store ls now) q = true ↔
      (hasSeen store q = true ∨ q ∈ ls.map (fun l => l.listing_id)) := by
  induction ls generalizing store with
  | nil => simp [markAllSeen]
  | cons l ls ih =>
      rw [markAllSeen_cons, ih, hasSeen_markSeen]
      simp only [Bool.or_eq_true, beq_iff_eq, List.map_cons, List.mem_cons]
      tauto

lemma lookupRecord_markAllSeen (store : Store) (ls : List Listing)
    (now : Time) (id : String) (r : ListingRecord)
    (hr : lookupRecord store id = some r) :
    ∃ r', lookupRecord (markAllSeen store ls now) id = some r' ∧
      r'.notified = r.notified ∧ r'.first_seen = r.first_seen ∧
      r'.title = r.title := by
  induction ls generalizing store r with
  | nil => exact ⟨r, hr, rfl, rfl, rfl⟩
  | cons l ls ih =>
      rw [markAllSeen_cons]
      by_cases h : id = l.listing_id
      · have hr' : lookupRecord store l.listing_id = some r := by
          rw [← h]
          exact hr
        have hstep : lookupRecord (markSeen store l.listing_id l.title true
            now) id = some { r with last_seen := now } := by
          rw [h, lookupRecord_markSeen_self, hr']
        obtain ⟨r', hr'', h1, h2, h3⟩ :=
          ih _ { r with last_seen := now } hstep
        exact ⟨r', hr'', h1, h2, h3⟩
      · have hstep : lookupRecord (markSeen store l.listing_id l.title true
            now) id = some r :=
          (lookupRecord_markSeen_other store l.listing_id l.title true now id
            h).trans hr
        exact ih _ _ hstep

lemma markAllSeen_created (store : Store) (ls : List Listing) (now : Time)
    (id : String) (hnew : hasSeen store id = false)
    (hafter : hasSeen (markAllSeen store ls now) id = true) :
    ∃ r', lookupRecord (markAllSeen store ls now) id = some r' ∧
      r'.notified = true := by
  induction ls generalizing store with
  | nil =>
      have hcontr : hasSeen store id = true := hafter
      rw [hnew] at hcontr
      cases hcontr
  | cons l ls ih =>
      rw [markAllSeen_cons] at hafter ⊢
      by_cases h : id = l.listing_id
      · rw [h] at hnew ⊢
        have hfresh : lookupRecord (markSeen store l.listing_id l.title true
            now) l.listing_id =
            some { listing_id := l.listing_id, title := l.title,
                   first_seen := now, last_seen := now,
                   notified := true } := by
          rw [lookupRecord_markSeen_self,
            hasSeen_false_lookup store l.listing_id hnew]
        obtain ⟨r', hr', h1, -, -⟩ :=
          lookupRecord_markAllSeen _ ls now l.listing_id _ hfresh
        exact ⟨r', hr', h1⟩
      · have hnew1 : hasSeen (markSeen store l.listing_id l.title true now)
            id = false := by
          rw [hasSeen_eq_isSome,
            lookupRecord_markSeen_other store l.listing_id l.title true now
              id h, ← hasSeen_eq_isSome, hnew]
        exact ih _ hnew1 hafter

lemma newBatch_eq (store : Store) (listings : List Listing) :
    newBatch store listings =
      listings.filter (fun l =>
        decide (l.listing_id ∈
          (listings.map (fun x => x.listing_id)).toFinset \
            storeKeys store)) := rfl

lemma mem_newBatch_iff (store : Store) (listings : List Listing)
    (l : Listing) :
    l ∈ newBatch store listings ↔
      l ∈ listings ∧ hasSeen store l.listing_id = false := by
  rw [newBatch_eq, List.mem_filter]
  simp only [decide_eq_true_eq, Finset.mem_sdiff, List.mem_toFinset,
    List.mem_map]
  constructor
  · rintro ⟨hl, -, hnot⟩
    exact ⟨hl, (hasSeen_false_iff store l.listing_id).mpr hnot⟩
  · rintro ⟨hl, hns⟩
    exact ⟨hl, ⟨l, hl, rfl⟩, (hasSeen_false_iff store l.listing_id).mp hns⟩

lemma processListings_eq_active (store : Store) (send : Listing → Bool)
    (now : Time) (listings : List Listing)
    (h : newBatch store listings ≠ []) :
    processListings store send now listings =
      (countSends send (newBatch store listings),
        markAllSeen store (newBatch store listings) now) := by
  have hne : listings ≠ [] := by
    intro hl
    subst hl
    exact h rfl
  have hids : ¬ ((listings.map (fun x => x.listing_id)).toFinset \
      storeKeys store = ∅) := by
    intro hempty
    apply h
    rw [newBatch_eq, List.filter_eq_nil_iff]
    intro a _
    simp [hempty]
  have hbool : listings.isEmpty = false := List.isEmpty_eq_false.mpr hne
  unfold processListings getNewListings
  simp only [hbool, Bool.false_eq_true, if_false]
  rw [if_neg hids]
  rfl

lemma processListings_eq_inactive (store : Store) (send : Listing → Bool)
    (now : Time) (listings : List Listing) (hne : listings ≠ [])
    (hempty : (listings.map (fun x => x.listing_id)).toFinset \
      storeKeys store = ∅) :
    processListings store send now listings = (0, store) := by
  have hbool : listings.isEmpty = false := List.isEmpty_eq_false.mpr hne
  unfold processListings getNewListings
  simp only [hbool, Bool.false_eq_true, if_false]
  rw [if_pos hempty]

lemma processListings_eq_of_newBatch_nil (store : Store)
    (send : Listing → Bool) (now : Time) (listings : List Listing)
    (h : newBatch store listings = []) :
    processListings store send now listings = (0, store) := by
  by_cases hne : listings = []
  · subst hne
    rfl
  · have hempty : (listings.map (fun x => x.listing_id)).toFinset \
        storeKeys store = ∅ := by
      rw [Finset.eq_empty_iff_forall_not_mem]
      intro id hid
      rw [Finset.mem_sdiff] at hid
      obtain ⟨hS, hK⟩ := hid
      rw [List.mem_toFinset, List.mem_map] at hS
      obtain ⟨x, hx, rfl⟩ := hS
      have hxb : x ∈ newBatch store listings := by
        rw [mem_newBatch_iff]
        exact ⟨hx, (hasSeen_false_iff store x.listing_id).mpr hK⟩
      rw [h] at hxb
      cases hxb
    exact processListings_eq_inactive store send now listings hne hempty

/-- A sample listing used by concrete witnesses. -/
def sampleListing : Listing :=
  { listing_id := "1", title := "A", price := "$1", location := "X",
    url := "u", image_url := none, description := none }

/-- C1: every listing of the new subset is marked seen by the cycle even if
its individual send failed, and a second cycle over the same source data
attempts nothing: its new batch is empty and it returns `(0, store)` with
the store unchanged. -/
theorem atMostOneAttempt (store : Store) (send send2 : Listing → Bool)
    (now now2 : Time) (listings : List Listing) (l : Listing)
    (hl : l ∈ newBatch store listings) (hfail : send l = false) :
    hasSeen (processListings store send now listings).2 l.listing_id =
      true ∧
    newBatch (processListings store send now listings).2 listings = [] ∧
    processListings (processListings store send now listings).2 send2 now2
        listings = (0, (processListings store send now listings).2) := by
  have hNB : newBatch store listings ≠ [] := by
    intro h
    rw [h] at hl
    cases hl
  rw [processListings_eq_active store send now listings hNB]
  have hall : ∀ x : Listing, x ∈ listings →
      hasSeen (markAllSeen store (newBatch store listings) now)
        x.listing_id = true := by
    intro x hx
    rw [hasSeen_markAllSeen]
    cases hs : hasSeen store x.listing_id with
    | true => exact Or.inl rfl
    | false =>
        right
        rw [List.mem_map]
        exact ⟨x, (mem_newBatch_iff store listings x).mpr ⟨hx, hs⟩, rfl⟩
  have hmem_l : l ∈ listings := ((mem_newBatch_iff store listings l).mp hl).1
  have hne : listings ≠ [] := by
    intro h
    subst h
    cases hmem_l
  have hempty2 : (listings.map (fun x => x.listing_id)).toFinset \
      storeKeys (markAllSeen store (newBatch store listings) now) = ∅ := by
    rw [Finset.eq_empty_iff_forall_not_mem]
    intro id hid
    rw [Finset.mem_sdiff] at hid
    obtain ⟨hS, hK⟩ := hid
    rw [List.mem_toFinset, List.mem_map] at hS
    obtain ⟨x, hx, rfl⟩ := hS
    exact hK ((hasSeen_iff_mem_keys _ x.listing_id).mp (hall x hx))
  refine ⟨hall l hmem_l, ?_, ?_⟩
  · rw [newBatch_eq, List.filter_eq_nil_iff]
    intro x _
    simp only [decide_eq_true_eq]
    rw [hempty2]
    exact Finset.not_mem_empty _
  · exact processListings_eq_inactive _ send2 now2 listings hne hempty2

/-- Witness for `atMostOneAttempt` on a fresh store with one listing whose
send fails. -/
theorem atMostOneAttempt_witness :
    sampleListing ∈ newBatch ([] : Store) [sampleListing] ∧
    hasSeen
      (processListings ([] : Store) (fun _ => false) 0 [sampleListing]).2
      sampleListing.listing_id = true :=
  ⟨(mem_newBatch_iff [] [sampleListing] sampleListing).mpr
      ⟨List.mem_singleton.mpr rfl, rfl⟩,
    (atMostOneAttempt [] (fun _ => false) (fun _ => false) 0 0
      [sampleListing] sampleListing
      ((mem_newBatch_iff [] [sampleListing] sampleListing).mpr
        ⟨List.mem_singleton.mpr rfl, rfl⟩) rfl).1⟩

/-- C7 as stated is false: the cycle marks a failed-send item with
`notified = true` (the monitor never passes `notified=False` to
`mark_seen`), refuted here on a one-listing cycle whose send fails. -/
theorem notifiedFlag_counterexample :
    ((fun _ : Listing => false) sampleListing = false) ∧
    ¬ (∀ r : ListingRecord,
        lookupRecord
          (processListings ([] : Store) (fun _ => false) 0
            [sampleListing]).2 sampleListing.listing_id = some r →
        r.notified = false) := by
  refine ⟨rfl, fun h => ?_⟩
  have hfalse := h
    { listing_id := "1", title := "A", first_seen := 0, last_seen := 0,
      notified := true } (by rfl)
  exact Bool.noConfusion (show true = false from hfalse)

/-- C7 amended: every record created by a check cycle carries
`notified = true`, regardless of the send outcome for that item. -/
theorem notifiedFlag_amended (store : Store) (send : Listing → Bool)
    (now : Time) (listings : List Listing) (id : String)
    (hnew : hasSeen store id = false)
    (hafter : hasSeen (processListings store send now listings).2 id =
      true) :
    ∃ r, lookupRecord (processListings store send now listings).2 id =
      some r ∧ r.notified = true := by
  by_cases hNB : newBatch store listings = []
  · rw [processListings_eq_of_newBatch_nil store send now listings hNB]
      at hafter
    have hcontr : hasSeen store id = true := hafter
    rw [hnew] at hcontr
    cases hcontr
  · rw [processListings_eq_active store send now listings hNB] at hafter ⊢
    exact markAllSeen_created store (newBatch store listings) now id hnew
      hafter

/-- Witness for `notifiedFlag_amended` on the counterexample cycle. -/
theorem notifiedFlag_amended_witness :
    ∃ r, lookupRecord
        (processListings ([] : Store) (fun _ => false) 0
          [sampleListing]).2 "1" = some r ∧ r.notified = true :=
  notifiedFlag_amended [] (fun _ => false) 0 [sampleListing] "1" rfl
    (by rfl)

/-! ### Cross-term dedup -/

lemma dedupAux_not_seen (ls : List Listing) (seen : List String)
    (l : Listing) (hl : l ∈ dedupAux seen ls) :
    seen.contains l.listing_id = false := by
  induction ls generalizing seen with
  | nil => cases hl
  | cons x ls ih =>
      simp only [dedupAux] at hl
      by_cases hx : seen.contains x.listing_id = true
      · rw [if_pos hx] at hl
        exact ih seen hl
      · rw [if_neg hx] at hl
        rcases List.mem_cons.mp hl with rfl | hmem
        · cases hc : seen.contains l.listing_id with
          | false => rfl
          | true => exact absurd hc hx
        · have hrec := ih (x.listing_id :: seen) hmem
          rw [List.contains_cons] at hrec
          exact (Bool.or_eq_false_iff.mp hrec).2

lemma dedupAux_nodup (ls : List Listing) (seen : List String) :
    ((dedupAux seen ls).map (fun l => l.listing_id)).Nodup := by
  induction ls generalizing seen with
  | nil => simp [dedupAux]
  | cons x ls ih =>
      simp only [dedupAux]
      by_cases hx : seen.contains x.listing_id = true
      · rw [if_pos hx]
        exact ih seen
      · rw [if_neg hx]
        simp only [List.map_cons]
        rw [List.nodup_cons]
        refine ⟨?_, ih _⟩
        intro hmem
        rw [List.mem_map] at hmem
        obtain ⟨y, hy, hid⟩ := hmem
        have hns := dedupAux_not_seen ls (x.listing_id :: seen) y hy
        rw [List.contains_cons] at hns
        have := (Bool.or_eq_false_iff.mp hns).1
        rw [hid] at this
        simp at this

lemma dedupAux_first (ls : List Listing) (seen : List String) (l : Listing)
    (hl : l ∈ dedupAux seen ls) :
    ls.find? (fun x => x.listing_id == l.listing_id) = some l := by
  induction ls generalizing seen with
  | nil => cases hl
  | cons x ls ih =>
      simp only [dedupAux] at hl
      by_cases hx : seen.contains x.listing_id = true
      · rw [if_pos hx] at hl
        have hnl := dedupAux_not_seen ls seen l hl
        have hxl : (x.listing_id == l.listing_id) = false := by
          cases hc : x.listing_id == l.listing_id with
          | false => rfl
          | true =>
              rw [eq_of_beq hc] at hx
              rw [hnl] at hx
              simp at hx
        rw [List.find?_cons]
        simp only [hxl]
        exact ih seen hl
      · rw [if_neg hx] at hl
        rcases List.mem_cons.mp hl with rfl | hmem
        · rw [List.find?_cons]
          simp
        · have hnl := dedupAux_not_seen ls (x.listing_id :: seen) l hmem
          rw [List.contains_cons] at hnl
          have hne1 := (Bool.or_eq_false_iff.mp hnl).1
          have hxl : (x.listing_id == l.listing_id) = false := by
            cases hc : x.listing_id == l.listing_id with
            | false => rfl
            | true =>
                rw [eq_of_beq hc] at hne1
                simp at hne1
          rw [List.find?_cons]
          simp only [hxl]
          exact ih _ hmem

lemma dedupAux_covers (ls : List Listing) (seen : List String) (l : Listing)
    (hl : l ∈ ls) (hs : seen.contains l.listing_id = false) :
    ∃ u ∈ dedupAux seen ls, u.listing_id = l.listing_id := by
  induction ls generalizing seen with
  | nil => cases hl
  | cons x ls ih =>
      simp only [dedupAux]
      by_cases hx : seen.contains x.listing_id = true
      · rw [if_pos hx]
        rcases List.mem_cons.mp hl with rfl | hmem
        · rw [hs] at hx
          cases hx
        · exact ih seen hmem hs
      · rw [if_neg hx]
        by_cases heq : x.listing_id = l.listing_id
        · exact ⟨x, List.mem_cons_self _ _, heq⟩
        · rcases List.mem_cons.mp hl with rfl | hmem
          · exact absurd rfl heq
          · have hs' : (x.listing_id :: seen).contains l.listing_id =
                false := by
              rw [List.contains_cons, Bool.or_eq_false_iff]
              refine ⟨?_, hs⟩
              cases hc : l.listing_id == x.listing_id with
              | false => rfl
              | true => exact absurd (eq_of_beq hc).symm heq
            obtain ⟨u, hu, hid⟩ := ih (x.listing_id :: seen) hmem hs'
            exact ⟨u, List.mem_cons_of_mem _ hu, hid⟩

/-- C6: merging per-term results deduplicates by id with the first
occurrence winning — the merged batch has pairwise-distinct ids, each kept
listing is the first with its id in the concatenated term results, every
observed id survives, and an unseen id hit by several terms in one cycle is
attempted exactly once. -/
theorem crossTermDedup (termResults : List (List Listing)) :
    ((searchAllKeywords termResults).map (fun l => l.listing_id)).Nodup ∧
    (∀ l : Listing, l ∈ searchAllKeywords termResults →
      termResults.flatten.find? (fun x => x.listing_id == l.listing_id) =
        some l) ∧
    (∀ l : Listing, l ∈ termResults.flatten →
      ∃ u ∈ searchAllKeywords termResults,
        u.listing_id = l.listing_id) ∧
    (∀ (store : Store) (l : Listing), l ∈ termResults.flatten →
      hasSeen store l.listing_id = false →
      ((newBatch store (searchAllKeywords termResults)).map
        (fun x => x.listing_id)).count l.listing_id = 1) := by
  refine ⟨dedupAux_nodup _ [], fun l hl => dedupAux_first _ [] l hl,
    fun l hl => dedupAux_covers _ [] l hl rfl, fun store l hl hns => ?_⟩
  have hnodup : ((newBatch store (searchAllKeywords termResults)).map
      (fun x => x.listing_id)).Nodup := by
    have hsub : List.Sublist
        (newBatch store (searchAllKeywords termResults))
        (searchAllKeywords termResults) := by
      rw [newBatch_eq]
      exact List.filter_sublist _
    exact List.Nodup.sublist (hsub.map _) (dedupAux_nodup _ [])
  obtain ⟨u, hu, hid⟩ := dedupAux_covers termResults.flatten [] l hl rfl
  have hub : u ∈ newBatch store (searchAllKeywords termResults) := by
    rw [mem_newBatch_iff]
    refine ⟨hu, ?_⟩
    rw [hid]
    exact hns
  have hmem : l.listing_id ∈ (newBatch store
      (searchAllKeywords termResults)).map (fun x => x.listing_id) := by
    rw [List.mem_map]
    exact ⟨u, hub, hid⟩
  exact List.count_eq_one_of_mem hnodup hmem

/-- Witness for `crossTermDedup`: the same listing returned by two search
terms is attempted exactly once against a fresh store. -/
theorem crossTermDedup_witness :
    sampleListing ∈ ([[sampleListing], [sampleListing]] :
      List (List Listing)).flatten ∧
    ((newBatch ([] : Store)
        (searchAllKeywords [[sampleListing], [sampleListing]])).map
      (fun x => x.listing_id)).count sampleListing.listing_id = 1 :=
  ⟨by simp, (crossTermDedup [[sampleListing], [sampleListing]]).2.2.2 []
    sampleListing (by simp) rfl⟩

/-! ### Retry/backoff policy -/

/-- C5: after each consecutive cycle failure the counter increments and the
backoff sleep is `min(30 * retry_count, 300)`; three consecutive failures
with `max_retries = 5` sleep `30, 60, 90`; on reaching `max_retries` the
loop sleeps the long fixed cooldown (the trailing backoff sleep is of
length zero because the counter has just been reset), so the total sleep is
the cooldown, not a continued multiple of the counter. -/
theorem backoffPolicy_spec :
    (∀ max_retries retry_delay check_interval rc : Nat,
        rc + 1 < max_retries →
        loopStep max_retries retry_delay check_interval rc
          (Except.error ()) = (rc + 1, [min (30 * (rc + 1)) 300])) ∧
    (∀ max_retries retry_delay check_interval rc : Nat,
        max_retries ≤ rc + 1 →
        loopStep max_retries retry_delay check_interval rc
            (Except.error ()) = (0, [retry_delay, 0]) ∧
          ((loopStep max_retries retry_delay check_interval rc
            (Except.error ())).2).sum = retry_delay) ∧
    (∀ retry_delay check_interval : Nat,
        runTrace 5 retry_delay check_interval 0
          [Except.error (), Except.error (), Except.error ()] =
          (3, [30, 60, 90])) := by
  refine ⟨?_, ?_, ?_⟩
  · intro a d c rc h
    have hnot : ¬ a ≤ rc + 1 := not_le.mpr h
    simp [loopStep, hnot]
  · intro a d c rc h
    constructor
    · simp [loopStep, h]
    · simp [loopStep, h]
  · intro d c
    rfl

/-- Witness for `backoffPolicy_spec` at `max_retries = 5`,
`retry_delay = 60`: a third consecutive failure sleeps 90, a fifth resets
the counter and sleeps only the cooldown. -/
theorem backoffPolicy_witness :
    loopStep 5 60 300 2 (Except.error ()) = (3, [min 90 300]) ∧
    loopStep 5 60 300 4 (Except.error ()) = (0, [60, 0]) ∧
    runTrace 5 60 300 0
      [Except.error (), Except.error (), Except.error ()] =
      (3, [30, 60, 90]) :=
  ⟨backoffPolicy_spec.1 5 60 300 2 (by decide),
   (backoffPolicy_spec.2.1 5 60 300 4 (by decide)).1,
   backoffPolicy_spec.2.2 60 300⟩

/-! ### Run-entry validation -/

/-- A concrete invalid configuration: no channel enabled, no keywords. -/
def badConfig : Config :=
  { telegram := { enabled := false }, whatsapp := { enabled := false },
    search := { keywords := [] },
    monitor := { check_interval_seconds := 300, max_retries := 3,
                 retry_delay_seconds := 60 } }

/-- A probe loop body: if the loop were entered it would report a cycle,
a cleared running flag and a shutdown. -/
def loopBodyProbe : Bool → RunResult := fun _ =>
  { cycles_executed := 1, errors_logged := [],
    running_flag_on_return := false, shutdown_called := true }

/-- C8 counterexample: on an invalid configuration `run` does fail fast
(zero cycles, both errors surfaced), but it returns with the running flag
still `true` and without the `Stopped`-transition actions — the monitor
does not end in the Stopped state. -/
theorem runStopped_counterexample :
    (runUpToLoop badConfig loopBodyProbe).cycles_executed = 0 ∧
    (runUpToLoop badConfig loopBodyProbe).errors_logged =
      ["No notification method configured. Enable Telegram or WhatsApp.",
       "No search keywords configured. Set SEARCH_KEYWORDS env var."] ∧
    (runUpToLoop badConfig loopBodyProbe).running_flag_on_return = true ∧
    (runUpToLoop badConfig loopBodyProbe).shutdown_called = false :=
  ⟨rfl, rfl, rfl, rfl⟩

/-- C8 amended: with an invalid configuration `run` fails fast — no check
cycle executes, every validation error is surfaced with each specific
missing item enumerated — but it returns with the internal running flag
still `true` and `shutdown` never invoked, rather than transitioning to a
stopped state. -/
theorem runInvalidConfig_failsFast (cfg : Config)
    (loopBody : Bool → RunResult) (hinvalid : cfg.validate ≠ []) :
    (runUpToLoop cfg loopBody).cycles_executed = 0 ∧
    (runUpToLoop cfg loopBody).errors_logged = cfg.validate ∧
    (runUpToLoop cfg loopBody).running_flag_on_return = true ∧
    (runUpToLoop cfg loopBody).shutdown_called = false ∧
    ((cfg.telegram.enabled = false ∧ cfg.whatsapp.enabled = false) →
      "No notification method configured. Enable Telegram or WhatsApp." ∈
        cfg.validate) ∧
    (cfg.search.keywords = [] →
      "No search keywords configured. Set SEARCH_KEYWORDS env var." ∈
        cfg.validate) := by
  have hb : (!cfg.validate.isEmpty) = true := by
    simp [List.isEmpty_iff, hinvalid]
  unfold runUpToLoop
  rw [if_pos hb]
  refine ⟨rfl, rfl, rfl, rfl, ?_, ?_⟩
  · rintro ⟨h1, h2⟩
    unfold Config.validate
    rw [List.mem_append]
    left
    rw [h1, h2]
    simp
  · intro hkw
    unfold Config.validate
    rw [List.mem_append]
    right
    rw [hkw]
    simp

/-- Witness for `runInvalidConfig_failsFast` on the concrete invalid
configuration. -/
theorem runInvalidConfig_witness :
    (runUpToLoop badConfig loopBodyProbe).cycles_executed = 0 ∧
    (runUpToLoop badConfig loopBodyProbe).running_flag_on_return = true :=
  ⟨(runInvalidConfig_failsFast badConfig loopBodyProbe (by decide)).1,
   (runInvalidConfig_failsFast badConfig loopBodyProbe
      (by decide)).2.2.1⟩

/-! ### Notification dispatch -/

/-- C9: `send_listing` converts every transport error into `false` (and
returns `true` exactly when the attempt succeeded); `notify_listings`
counts exactly the individually successful sends, and a failed item never
aborts the rest of the batch. -/
theorem notifyBatch_spec {ε : Type} (T : Transport ε) (enabled : Bool) :
    (∀ l : Listing, sendListing T l = false ↔
      ∃ e, sendListingAttempt T l = Except.error e) ∧
    (∀ l : Listing, sendListing T l = true ↔
      sendListingAttempt T l = Except.ok ()) ∧
    (∀ ls : List Listing, notifyListings enabled T ls =
      (ls.filter (fun l => notifyListing enabled T l)).length) ∧
    (∀ (l : Listing) (ls : List Listing),
      notifyListings enabled T (l :: ls) =
        (if notifyListing enabled T l then 1 else 0) +
          notifyListings enabled T ls) := by
  refine ⟨?_, ?_, ?_, fun l ls => rfl⟩
  · intro l
    unfold sendListing
    cases h : sendListingAttempt T l with
    | ok u => simp
    | error e => simp
  · intro l
    unfold sendListing
    cases h : sendListingAttempt T l with
    | ok u =>
        cases u
        simp
    | error e => simp
  · intro ls
    induction ls with
    | nil => rfl
    | cons l ls ih =>
        simp only [notifyListings, List.filter_cons]
        cases h : notifyListing enabled T l with
        | true => simp [ih, Nat.add_comm]
        | false => simp [ih]

/-- A transport whose sends all fail (photo and message). -/
def flakyTransport : Transport Unit :=
  { getBot := Except.ok (), sendPhoto := fun _ _ => Except.error (),
    sendMessage := fun _ => Except.error () }

/-- Witness for `notifyBatch_spec` on a concrete all-failing transport. -/
theorem notifyBatch_witness :
    notifyListings true flakyTransport [sampleListing, sampleListing] =
      (([sampleListing, sampleListing] : List Listing).filter
        (fun l => notifyListing true flakyTransport l)).length :=
  (notifyBatch_spec flakyTransport true).2.2.1 [sampleListing, sampleListing]

/-! ### check_once totality -/

lemma except_bind_ok {ε α β : Type} (a : α) (f : α → Except ε β) :
    (Except.ok a >>= f) = f a := rfl

lemma except_bind_error {ε α β : Type} (e : ε) (f : α → Except ε β) :
    ((Except.error e : Except ε α) >>= f) = Except.error e := rfl

lemma checkOnce_eval {ε : Type} (searchStep : Except ε (List Listing))
    (processStep : List Listing → Except ε Nat)
    (cleanupStep : Except ε Nat) :
    checkOnce searchStep processStep cleanupStep =
      match searchStep with
      | .error _ => 0
      | .ok ls =>
          match processStep ls with
          | .error _ => 0
          | .ok n =>
              match cleanupStep with
              | .error _ => 0
              | .ok _ => n := by
  unfold checkOnce
  cases searchStep with
  | error e => rfl
  | ok ls =>
      rw [except_bind_ok]
      simp only []
      cases hp : processStep ls with
      | error e => rfl
      | ok n =>
          rw [except_bind_ok]
          simp only []
          cases hc : cleanupStep with
          | error e => rfl
          | ok m => rfl

/-- C10: `check_once` is total at its boundary — whatever the outcomes of
the search, process and cleanup steps (including failures), it returns a
number: `0` whenever any step raised, and the processed notification count
when all steps succeed; instantiated with the concrete `processListings`
it returns that cycle's success count. -/
theorem checkOnce_total {ε : Type} (searchStep : Except ε (List Listing))
    (processStep : List Listing → Except ε Nat)
    (cleanupStep : Except ε Nat) :
    (∀ e, searchStep = Except.error e →
      checkOnce searchStep processStep cleanupStep = 0) ∧
    (∀ ls e, searchStep = Except.ok ls → processStep ls = Except.error e →
      checkOnce searchStep processStep cleanupStep = 0) ∧
    (∀ ls n e, searchStep = Except.ok ls → processStep ls = Except.ok n →
      cleanupStep = Except.error e →
      checkOnce searchStep processStep cleanupStep = 0) ∧
    (∀ ls n m, searchStep = Except.ok ls → processStep ls = Except.ok n →
      cleanupStep = Except.ok m →
      checkOnce searchStep processStep cleanupStep = n) ∧
    (checkOnce searchStep processStep cleanupStep = 0 ∨
      ∃ ls n, searchStep = Except.ok ls ∧ processStep ls = Except.ok n ∧
        checkOnce searchStep processStep cleanupStep = n) ∧
    (∀ (store : Store) (send : Listing → Bool) (now : Time)
        (ls : List Listing),
      checkOnce (Except.ok ls : Except Unit (List Listing))
        (fun x => Except.ok (processListings store send now x).1)
        (Except.ok 0) = (processListings store send now ls).1) := by
  have case1 : ∀ e, searchStep = Except.error e →
      checkOnce searchStep processStep cleanupStep = 0 := by
    intro e h
    rw [checkOnce_eval, h]
  have case2 : ∀ ls e, searchStep = Except.ok ls →
      processStep ls = Except.error e →
      checkOnce searchStep processStep cleanupStep = 0 := by
    intro ls e h1 h2
    rw [checkOnce_eval, h1]
    simp only []
    rw [h2]
  have case3 : ∀ ls n e, searchStep = Except.ok ls →
      processStep ls = Except.ok n → cleanupStep = Except.error e →
      checkOnce searchStep processStep cleanupStep = 0 := by
    intro ls n e h1 h2 h3
    rw [checkOnce_eval, h1]
    simp only []
    rw [h2]
    simp only []
    rw [h3]
  have case4 : ∀ ls n m, searchStep = Except.ok ls →
      processStep ls = Except.ok n → cleanupStep = Except.ok m →
      checkOnce searchStep processStep cleanupStep = n := by
    intro ls n m h1 h2 h3
    rw [checkOnce_eval, h1]
    simp only []
    rw [h2]
    simp only []
    rw [h3]
  refine ⟨case1, case2, case3, case4, ?_, ?_⟩
  · cases h1 : searchStep with
    | error e =>
        rw [← h1]
        exact Or.inl (case1 e h1)
    | ok ls =>
        cases h2 : processStep ls with
        | error e =>
            rw [← h1]
            exact Or.inl (case2 ls e h1 h2)
        | ok n =>
            cases h3 : cleanupStep with
            | error e =>
                rw [← h1, ← h3]
                exact Or.inl (case3 ls n e h1 h2 h3)
            | ok m =>
                rw [← h1, ← h3]
                exact Or.inr ⟨ls, n, h1, h2, case4 ls n m h1 h2 h3⟩
  · intro store send now ls
    rw [checkOnce_eval]

/-- Witness for `checkOnce_total`: a failing search step yields `0`, and a
fully successful concrete cycle yields its success count. -/
theorem checkOnce_witness :
    checkOnce (Except.error () : Except Unit (List Listing))
      (fun _ => Except.ok 7) (Except.ok 0) = 0 ∧
    checkOnce (Except.ok [sampleListing] : Except Unit (List Listing))
      (fun x => Except.ok
        (processListings ([] : Store) (fun _ => true) 0 x).1)
      (Except.ok 0) =
      (processListings ([] : Store) (fun _ => true) 0 [sampleListing]).1 :=
  ⟨(checkOnce_total (Except.error () : Except Unit (List Listing))
      (fun _ => Except.ok 7) (Except.ok 0)).1 () rfl,
   (checkOnce_total (Except.ok [sampleListing] : Except Unit (List Listing))
      (fun x => Except.ok
        (processListings ([] : Store) (fun _ => true) 0 x).1)
      (Except.ok 0)).2.2.2.2.2 [] (fun _ => true) 0 [sampleListing]⟩

end FbMonitor
